import Mathlib

/-!
Verification of the per-network plumbing of an overlay-network node
(content keys, content values, JSON-RPC handlers and validators for the
blob and canonical-indices subnetworks), shallowly embedded from the
Rust sources.  Byte strings are `List Nat`, Rust `String`s are
`List Char`, fallible operations return `Except`.
-/

/-- Little-endian 4-byte encoding of a `u32` offset, as written by the
SSZ encoder. -/
def u32le (n : Nat) : List Nat :=
  [n % 256, n / 256 % 256, n / 65536 % 256, n / 16777216 % 256]

/-- Little-endian 8-byte encoding of a `u64`. -/
def u64le (n : Nat) : List Nat :=
  [n % 256, n / 256 % 256, n / 65536 % 256, n / 16777216 % 256,
   n / 4294967296 % 256, n / 1099511627776 % 256,
   n / 281474976710656 % 256, n / 72057594037927936 % 256]

/-- Value of a little-endian byte string. -/
def fromLEBytes : List Nat → Nat
  | [] => 0
  | b :: rest => b + 256 * fromLEBytes rest

/-- Read a 4-byte little-endian SSZ length offset from the front of a
byte string (`ssz::read_offset`); fails when fewer than 4 bytes remain. -/
def readOffset : List Nat → Option Nat
  | a :: b :: c :: d :: _ => some (a + 256 * b + 65536 * c + 16777216 * d)
  | _ => none

theorem readOffset_u32le_append (n : Nat) (h : n < 4294967296) (rest : List Nat) :
    readOffset (u32le n ++ rest) = some n := by
  simp only [u32le, List.cons_append, List.nil_append, readOffset, Option.some.injEq]
  omega

theorem fromLEBytes_u64le (n : Nat) (h : n < 18446744073709551616) :
    fromLEBytes (u64le n) = n := by
  simp only [u64le, fromLEBytes]
  omega

theorem u32le_length (n : Nat) : (u32le n).length = 4 := rfl

theorem u64le_length (n : Nat) : (u64le n).length = 8 := rfl

/-- SSZ decode errors (a compressed form of `ssz::DecodeError`). -/
inductive SszDecodeError
  | invalidByteLength
  | offsetReadFailure
  | offsetOutOfBounds
  | offsetsAreDecreasing
  | invalidListFixedBytesLen
  | offsetMismatch
  | unionSelectorInvalid
  deriving DecidableEq, Repr

/-- Errors from `ContentValue::decode` (`ContentValueError`). -/
inductive ContentValueError
  | DecodeAbsentContent
  | UnknownContent
  deriving DecidableEq, Repr

/-- Errors from content-key byte conversion (`ContentKeyError`). -/
inductive ContentKeyError
  | DecodeSsz (decode_error : SszDecodeError)
  deriving DecidableEq, Repr

/-- A key for a blob, `BlobKey { blob_commitment: [u8; 32] }`.  The
fixed 32-byte width of the Rust array is carried as a hypothesis where
needed. -/
structure BlobKey where
  blob_commitment : List Nat
  deriving DecidableEq, Repr

/-- A content key in the blob overlay network (SSZ union with a single
`Blob` variant). -/
inductive BlobContentKey
  | Blob (k : BlobKey)
  deriving DecidableEq, Repr

/-- SSZ encoding of `BlobContentKey` (union selector byte `0x00`
followed by the fixed 32-byte commitment). -/
def BlobContentKey.as_ssz_bytes : BlobContentKey → List Nat
  | .Blob k => 0 :: k.blob_commitment

/-- SSZ decoding of `BlobContentKey`: one selector byte, then a
fixed-length 32-byte body. -/
def BlobContentKey.from_ssz_bytes : List Nat → Except SszDecodeError BlobContentKey
  | [] => .error .unionSelectorInvalid
  | sel :: rest =>
    if sel = 0 then
      if rest.length = 32 then .ok (.Blob ⟨rest⟩) else .error .invalidByteLength
    else .error .unionSelectorInvalid

/-- The `From<BlobContentKey> for Vec<u8>` conversion. -/
def BlobContentKey.toVec (k : BlobContentKey) : List Nat := k.as_ssz_bytes

/-- The `TryFrom<Vec<u8>> for BlobContentKey` conversion. -/
def BlobContentKey.try_from (v : List Nat) : Except ContentKeyError BlobContentKey :=
  match BlobContentKey.from_ssz_bytes v with
  | .ok k => .ok k
  | .error e => .error (.DecodeSsz e)

/-- A key for a transaction, `TransactionKey { transaction_hash: [u8; 32] }`. -/
structure TransactionKey where
  transaction_hash : List Nat
  deriving DecidableEq, Repr

/-- A content key in the canonical-indices overlay network (SSZ union
with a single `Transaction` variant). -/
inductive CanonicalIndicesContentKey
  | Transaction (k : TransactionKey)
  deriving DecidableEq, Repr

/-- SSZ encoding of `CanonicalIndicesContentKey`. -/
def CanonicalIndicesContentKey.as_ssz_bytes : CanonicalIndicesContentKey → List Nat
  | .Transaction k => 0 :: k.transaction_hash

/-- SSZ decoding of `CanonicalIndicesContentKey`. -/
def CanonicalIndicesContentKey.from_ssz_bytes :
    List Nat → Except SszDecodeError CanonicalIndicesContentKey
  | [] => .error .unionSelectorInvalid
  | sel :: rest =>
    if sel = 0 then
      if rest.length = 32 then .ok (.Transaction ⟨rest⟩) else .error .invalidByteLength
    else .error .unionSelectorInvalid

/-- The `From<CanonicalIndicesContentKey> for Vec<u8>` conversion. -/
def CanonicalIndicesContentKey.toVec (k : CanonicalIndicesContentKey) : List Nat :=
  k.as_ssz_bytes

/-- The `TryFrom<Vec<u8>> for CanonicalIndicesContentKey` conversion. -/
def CanonicalIndicesContentKey.try_from (v : List Nat) :
    Except ContentKeyError CanonicalIndicesContentKey :=
  match CanonicalIndicesContentKey.from_ssz_bytes v with
  | .ok k => .ok k
  | .error e => .error (.DecodeSsz e)

theorem blob_key_roundtrip (c : List Nat) (h : c.length = 32) :
    BlobContentKey.try_from (BlobContentKey.toVec (.Blob ⟨c⟩)) = .ok (.Blob ⟨c⟩) := by
  simp [BlobContentKey.try_from, BlobContentKey.toVec, BlobContentKey.as_ssz_bytes,
    BlobContentKey.from_ssz_bytes, h]

theorem canonical_key_roundtrip (c : List Nat) (h : c.length = 32) :
    CanonicalIndicesContentKey.try_from
      (CanonicalIndicesContentKey.toVec (.Transaction ⟨c⟩)) = .ok (.Transaction ⟨c⟩) := by
  simp [CanonicalIndicesContentKey.try_from, CanonicalIndicesContentKey.toVec,
    CanonicalIndicesContentKey.as_ssz_bytes, CanonicalIndicesContentKey.from_ssz_bytes, h]

/-- Sum of the lengths of a list of byte strings. -/
def sumLen (l : List (List Nat)) : Nat := (l.map List.length).sum

/-- The offsets block written by the SSZ encoder for a list of
variable-length items: one 4-byte offset per item, starting at `base`
and advancing by each item's length. -/
def sszOffsets (base : Nat) : List (List Nat) → List Nat
  | [] => []
  | x :: xs => u32le base ++ sszOffsets (base + x.length) xs

/-- SSZ encoding of `Vec<Vec<u8>>`: all offsets, then all item bytes. -/
def encodeByteLists (l : List (List Nat)) : List Nat :=
  sszOffsets (4 * l.length) l ++ l.flatten

/-- The item-slicing loop of `ssz::decode_list_of_variable_length_items`:
having read the offset `prev` of item `i - 1`, read subsequent offsets
at byte positions `4 * i`, check they are in bounds and non-decreasing,
and cut the byte string into item slices; the final item runs to the
end of the input. -/
def sliceSegs (bs : List Nat) : Nat → Nat → Nat → Except SszDecodeError (List (List Nat))
  | 0, _, prev => .ok [bs.drop prev]
  | r + 1, i, prev =>
    match readOffset (bs.drop (4 * i)) with
    | none => .error .offsetReadFailure
    | some next =>
      if next > bs.length then .error .offsetOutOfBounds
      else if prev > next then .error .offsetsAreDecreasing
      else
        match sliceSegs bs r (i + 1) next with
        | .ok rest => .ok ((bs.drop prev).take (next - prev) :: rest)
        | .error e => .error e

/-- SSZ decoding of `Vec<Vec<u8>>`
(`ssz::decode_list_of_variable_length_items`): empty input is the empty
list; otherwise the first offset fixes the item count and the input is
cut at the offsets. -/
def decodeByteLists (bs : List Nat) : Except SszDecodeError (List (List Nat)) :=
  if bs.isEmpty then .ok []
  else
    match readOffset bs with
    | none => .error .offsetReadFailure
    | some first =>
      if first > bs.length then .error .offsetOutOfBounds
      else if first % 4 ≠ 0 ∨ first < 4 then .error .invalidListFixedBytesLen
      else sliceSegs bs (first / 4 - 1) 1 first

theorem sszOffsets_length (base : Nat) (l : List (List Nat)) :
    (sszOffsets base l).length = 4 * l.length := by
  induction l generalizing base with
  | nil => rfl
  | cons x xs ih => simp [sszOffsets, ih, u32le]; ring

theorem sumLen_take_add_drop (l : List (List Nat)) (j : Nat) :
    sumLen (l.take j) + sumLen (l.drop j) = sumLen l := by
  simp only [sumLen]
  rw [← List.sum_append, ← List.map_append, List.take_append_drop]

theorem sumLen_take_le (l : List (List Nat)) (j : Nat) : sumLen (l.take j) ≤ sumLen l := by
  have := sumLen_take_add_drop l j
  omega

theorem sumLen_take_succ (l : List (List Nat)) (j : Nat) (h : j < l.length) :
    sumLen (l.take (j + 1)) = sumLen (l.take j) + (l.get ⟨j, h⟩).length := by
  simp only [sumLen]
  rw [List.take_succ, List.map_append, List.sum_append, List.getElem?_eq_getElem h]
  simp

theorem flatten_drop_sumLen_take (l : List (List Nat)) (j : Nat) :
    l.flatten.drop (sumLen (l.take j)) = (l.drop j).flatten := by
  induction l generalizing j with
  | nil => simp [sumLen]
  | cons x xs ih =>
    cases j with
    | zero => simp [sumLen]
    | succ j =>
      simp only [List.take_succ_cons, List.drop_succ_cons, List.flatten_cons, sumLen,
        List.map_cons, List.sum_cons]
      rw [show x.length + ((xs.take j).map List.length).sum
            = x.length + sumLen (xs.take j) from rfl]
      rw [List.drop_append]
      exact ih j

theorem sszOffsets_drop (l : List (List Nat)) (base j : Nat) (h : j ≤ l.length) :
    (sszOffsets base l).drop (4 * j) = sszOffsets (base + sumLen (l.take j)) (l.drop j) := by
  induction j generalizing l base with
  | zero => simp [sumLen]
  | succ j ih =>
    cases l with
    | nil => simp at h
    | cons x xs =>
      simp only [List.length_cons] at h
      simp only [sszOffsets, List.take_succ_cons, List.drop_succ_cons]
      rw [show 4 * (j + 1) = (u32le base).length + 4 * j by simp [u32le]; ring]
      rw [List.drop_append, ih xs (base + x.length) (by omega)]
      have : sumLen (x :: xs.take j) = x.length + sumLen (xs.take j) := by
        simp [sumLen]
      rw [this, Nat.add_assoc]


theorem drop_append_of_length (A B : List Nat) (k s : Nat) (h : A.length = k) :
    (A ++ B).drop (k + s) = B.drop s := by
  subst h
  rw [List.drop_append]

theorem encodeByteLists_length (l : List (List Nat)) :
    (encodeByteLists l).length = 4 * l.length + sumLen l := by
  simp [encodeByteLists, sszOffsets_length, sumLen]

theorem encodeByteLists_drop_payload (l : List (List Nat)) (m : Nat) :
    (encodeByteLists l).drop (4 * l.length + sumLen (l.take m)) = (l.drop m).flatten := by
  rw [encodeByteLists, drop_append_of_length _ _ _ _ (sszOffsets_length _ _),
    flatten_drop_sumLen_take]

theorem flatten_singleton_of_length_one (r : List (List Nat)) (h : r.length = 1) :
    [r.flatten] = r := by
  match r, h with
  | [x], _ => simp

theorem sliceSegs_encodeByteLists (l : List (List Nat))
    (hbound : 4 * l.length + sumLen l < 4294967296) :
    ∀ d m, m + 1 + d = l.length →
      sliceSegs (encodeByteLists l) d (m + 1) (4 * l.length + sumLen (l.take m)) =
        .ok (l.drop m) := by
  have hlen : (encodeByteLists l).length = 4 * l.length + sumLen l := encodeByteLists_length l
  intro d
  induction d with
  | zero =>
    intro m hm
    rw [sliceSegs, encodeByteLists_drop_payload]
    have hdrop : (l.drop m).length = 1 := by
      rw [List.length_drop]; omega
    rw [flatten_singleton_of_length_one _ hdrop]
  | succ d ih =>
    intro m hm
    have hmlt : m + 1 < l.length := by omega
    have hnext : sumLen (l.take (m + 1)) ≤ sumLen l := sumLen_take_le l (m + 1)
    have hsucc := sumLen_take_succ l m (by omega)
    have hoff : readOffset ((encodeByteLists l).drop (4 * (m + 1))) =
        some (4 * l.length + sumLen (l.take (m + 1))) := by
      have h1 : 4 * (m + 1) ≤ (sszOffsets (4 * l.length) l).length := by
        rw [sszOffsets_length]; omega
      rw [encodeByteLists, List.drop_append_of_le_length h1,
        sszOffsets_drop l (4 * l.length) (m + 1) (by omega)]
      have h2 : ∃ x xs, l.drop (m + 1) = x :: xs := by
        cases hc : l.drop (m + 1) with
        | nil =>
          exfalso
          have := List.length_drop (m + 1) l
          rw [hc] at this
          simp at this
          omega
        | cons x xs => exact ⟨x, xs, rfl⟩
      obtain ⟨x, xs, hx⟩ := h2
      rw [hx, sszOffsets, List.append_assoc]
      exact readOffset_u32le_append _ (by omega) _
    rw [sliceSegs]
    split
    case h_1 heq => rw [hoff] at heq; exact absurd heq (by simp)
    case h_2 next heq =>
      rw [hoff] at heq
      have hnexteq : next = 4 * l.length + sumLen (l.take (m + 1)) := by
        injection heq with h
        omega
      subst hnexteq
      rw [if_neg (by omega), if_neg (by omega)]
      split
      case h_1 rest heq2 =>
        rw [ih (m + 1) (by omega)] at heq2
        injection heq2 with hrest
        subst hrest
        rw [encodeByteLists_drop_payload]
        have hseg : ((l.drop m).flatten).take
            (4 * l.length + sumLen (l.take (m + 1)) - (4 * l.length + sumLen (l.take m))) =
            l.get ⟨m, by omega⟩ := by
          have hd : l.drop m = l.get ⟨m, by omega⟩ :: l.drop (m + 1) :=
            List.drop_eq_getElem_cons (by omega)
          rw [hd, List.flatten_cons,
            show 4 * l.length + sumLen (l.take (m + 1)) -
                (4 * l.length + sumLen (l.take m)) = (l.get ⟨m, by omega⟩).length by omega]
          exact List.take_left _ _
        rw [hseg,
          show l.get ⟨m, by omega⟩ :: l.drop (m + 1) = l.drop m from
            (List.drop_eq_getElem_cons (by omega)).symm]
      case h_2 e heq2 =>
        rw [ih (m + 1) (by omega)] at heq2
        exact absurd heq2 (by simp)

theorem decodeByteLists_encodeByteLists (l : List (List Nat))
    (hbound : 4 * l.length + sumLen l < 4294967296) :
    decodeByteLists (encodeByteLists l) = .ok l := by
  cases hl : l with
  | nil => rfl
  | cons x xs =>
    subst hl
    have hlen : (encodeByteLists (x :: xs)).length =
        4 * (x :: xs).length + sumLen (x :: xs) := encodeByteLists_length _
    have hlen1 : (x :: xs).length = xs.length + 1 := rfl
    have hne : (encodeByteLists (x :: xs)).isEmpty = false := by
      simp [encodeByteLists, sszOffsets, u32le]
    have hoff : readOffset (encodeByteLists (x :: xs)) = some (4 * (x :: xs).length) := by
      rw [encodeByteLists, sszOffsets, List.append_assoc]
      exact readOffset_u32le_append _ (by omega) _
    rw [decodeByteLists, if_neg (by simp [hne])]
    split
    case h_1 heq => rw [hoff] at heq; exact absurd heq (by simp)
    case h_2 first heq =>
      rw [hoff] at heq
      have hfirst : first = 4 * (x :: xs).length := by
        injection heq with h
        omega
      subst hfirst
      have hle : 4 * (x :: xs).length ≤ (encodeByteLists (x :: xs)).length := by
        rw [hlen]; omega
      rw [if_neg (by omega), if_neg (by push_neg; constructor <;> omega),
        show 4 * (x :: xs).length / 4 = (x :: xs).length by omega,
        show (x :: xs).length - 1 = xs.length by simp]
      have := sliceSegs_encodeByteLists (x :: xs) hbound xs.length 0 (by simp; omega)
      simpa [sumLen] using this

/-- ASCII bytes of the absence sentinel string `"0x"` (`CONTENT_ABSENT`). -/
def contentAbsentBytes : List Nat := [48, 120]

/-- The blob payload, `Blob { blob: Vec<u8> }`. -/
structure Blob where
  blob : List Nat
  deriving DecidableEq, Repr

/-- SSZ encoding of `Blob`: a container with one variable-length
byte-list field, so a 4-byte offset (always 4) followed by the bytes.
Modelled from the spec: the `ByteList` alias lives in a source file not
in the excerpt; its length cap is modelled as unbounded, per the spec's
unconditional round-trip property. -/
def Blob.as_ssz_bytes (b : Blob) : List Nat := u32le 4 ++ b.blob

/-- SSZ decoding of `Blob`: read the single 4-byte offset, require it
to equal the fixed-part length 4, and take the remaining bytes. -/
def Blob.from_ssz_bytes (bs : List Nat) : Except SszDecodeError Blob :=
  match readOffset bs with
  | none => .error .offsetReadFailure
  | some off => if off = 4 then .ok ⟨bs.drop 4⟩ else .error .offsetMismatch

/-- The transaction-index payload,
`TransactionIndex { block_hash: H256, transaction_index: u64, proof: Vec<Vec<u8>> }`. -/
structure TransactionIndex where
  block_hash : List Nat
  transaction_index : Nat
  proof : List (List Nat)
  deriving DecidableEq, Repr

/-- Derived SSZ encoding of `TransactionIndex`: 32-byte hash, 8-byte
little-endian index, the 4-byte offset of the variable part (always 44),
then the encoded proof list. -/
def TransactionIndex.as_ssz_bytes (t : TransactionIndex) : List Nat :=
  t.block_hash ++ u64le t.transaction_index ++ u32le 44 ++ encodeByteLists t.proof

/-- Derived SSZ decoding of `TransactionIndex`: split the 44-byte fixed
part, require the variable-part offset to equal 44, and decode the
proof list from the remainder. -/
def TransactionIndex.from_ssz_bytes (bs : List Nat) : Except SszDecodeError TransactionIndex :=
  if bs.length < 44 then .error .invalidByteLength
  else
    match readOffset (bs.drop 40) with
    | none => .error .offsetReadFailure
    | some off =>
      if off = 44 then
        match decodeByteLists (bs.drop 44) with
        | .ok proof =>
          .ok ⟨bs.take 32, fromLEBytes ((bs.drop 32).take 8), proof⟩
        | .error e => .error e
      else .error .offsetMismatch

/-- A Portal blob content value (`BlobContentValue`). -/
inductive BlobContentValue
  | Blob (v : Blob)
  deriving DecidableEq, Repr

/-- `ContentValue::encode` for `BlobContentValue`. -/
def BlobContentValue.encode : BlobContentValue → List Nat
  | .Blob v => v.as_ssz_bytes

/-- `ContentValue::decode` for `BlobContentValue`: the `"0x"` sentinel
bytes are rejected as `DecodeAbsentContent` before any SSZ decoding;
any other undecodable input is `UnknownContent`. -/
def BlobContentValue.decode (buf : List Nat) : Except ContentValueError BlobContentValue :=
  if buf = contentAbsentBytes then .error .DecodeAbsentContent
  else
    match Blob.from_ssz_bytes buf with
    | .ok v => .ok (.Blob v)
    | .error _ => .error .UnknownContent

/-- A Portal transaction-index content value (`CanonicalIndicesContentValue`). -/
inductive CanonicalIndicesContentValue
  | TransactionIndex (v : TransactionIndex)
  deriving DecidableEq, Repr

/-- `ContentValue::encode` for `CanonicalIndicesContentValue`. -/
def CanonicalIndicesContentValue.encode : CanonicalIndicesContentValue → List Nat
  | .TransactionIndex v => v.as_ssz_bytes

/-- `ContentValue::decode` for `CanonicalIndicesContentValue`, with the
same `"0x"` sentinel guard. -/
def CanonicalIndicesContentValue.decode (buf : List Nat) :
    Except ContentValueError CanonicalIndicesContentValue :=
  if buf = contentAbsentBytes then .error .DecodeAbsentContent
  else
    match TransactionIndex.from_ssz_bytes buf with
    | .ok v => .ok (.TransactionIndex v)
    | .error _ => .error .UnknownContent

theorem take_append_all (A B : List Nat) (k : Nat) (h : A.length = k) :
    (A ++ B).take k = A := by
  subst h
  exact List.take_left _ _

theorem drop_append_all (A B : List Nat) (k : Nat) (h : A.length = k) :
    (A ++ B).drop k = B := by
  subst h
  exact List.drop_left _ _

theorem blob_as_ssz_bytes_length (b : Blob) :
    (Blob.as_ssz_bytes b).length = 4 + b.blob.length := by
  simp [Blob.as_ssz_bytes, u32le]
  omega

theorem blob_from_ssz_bytes_as_ssz_bytes (b : Blob) :
    Blob.from_ssz_bytes (Blob.as_ssz_bytes b) = .ok b := by
  rw [Blob.as_ssz_bytes, Blob.from_ssz_bytes]
  split
  case h_1 heq => rw [readOffset_u32le_append 4 (by omega)] at heq; exact absurd heq (by simp)
  case h_2 off heq =>
    rw [readOffset_u32le_append 4 (by omega)] at heq
    have hoff : off = 4 := by injection heq with h; omega
    subst hoff
    rw [if_pos rfl, drop_append_all (u32le 4) b.blob 4 rfl]

theorem blob_value_roundtrip (v : BlobContentValue) :
    BlobContentValue.decode (BlobContentValue.encode v) = .ok v := by
  obtain ⟨b⟩ := v
  have hlen : (BlobContentValue.encode (.Blob b)).length = 4 + b.blob.length := by
    simp [BlobContentValue.encode, blob_as_ssz_bytes_length]
  rw [BlobContentValue.decode, if_neg (by
    intro hc
    rw [hc] at hlen
    simp [contentAbsentBytes] at hlen
    omega)]
  rw [show BlobContentValue.encode (.Blob b) = Blob.as_ssz_bytes b from rfl,
    blob_from_ssz_bytes_as_ssz_bytes]

theorem txindex_as_ssz_bytes_length (t : TransactionIndex) (h : t.block_hash.length = 32) :
    (TransactionIndex.as_ssz_bytes t).length = 44 + (encodeByteLists t.proof).length := by
  simp [TransactionIndex.as_ssz_bytes, u64le, u32le, h]
  omega

theorem txindex_from_ssz_bytes_as_ssz_bytes (t : TransactionIndex)
    (hh : t.block_hash.length = 32)
    (hi : t.transaction_index < 18446744073709551616)
    (hp : 4 * t.proof.length + sumLen t.proof < 4294967296) :
    TransactionIndex.from_ssz_bytes (TransactionIndex.as_ssz_bytes t) = .ok t := by
  have hlen := txindex_as_ssz_bytes_length t hh
  have hdrop40 : (TransactionIndex.as_ssz_bytes t).drop 40 =
      u32le 44 ++ encodeByteLists t.proof := by
    rw [TransactionIndex.as_ssz_bytes, List.append_assoc (t.block_hash ++ _),
      drop_append_all _ _ 40 (by simp [u64le, hh])]
  have hdrop44 : (TransactionIndex.as_ssz_bytes t).drop 44 = encodeByteLists t.proof := by
    rw [TransactionIndex.as_ssz_bytes, drop_append_all _ _ 44 (by simp [u64le, u32le, hh])]
  have htake32 : (TransactionIndex.as_ssz_bytes t).take 32 = t.block_hash := by
    rw [TransactionIndex.as_ssz_bytes, List.append_assoc (t.block_hash ++ _),
      List.append_assoc t.block_hash, take_append_all _ _ 32 hh]
  have hidx : ((TransactionIndex.as_ssz_bytes t).drop 32).take 8 =
      u64le t.transaction_index := by
    rw [TransactionIndex.as_ssz_bytes, List.append_assoc (t.block_hash ++ _),
      List.append_assoc t.block_hash, drop_append_all _ _ 32 hh,
      take_append_all (u64le t.transaction_index) _ 8 rfl]
  rw [TransactionIndex.from_ssz_bytes, if_neg (by omega)]
  split
  case h_1 heq =>
    rw [hdrop40, readOffset_u32le_append 44 (by omega)] at heq
    exact absurd heq (by simp)
  case h_2 off heq =>
    rw [hdrop40, readOffset_u32le_append 44 (by omega)] at heq
    have hoff : off = 44 := by injection heq with h; omega
    subst hoff
    rw [if_pos rfl]
    split
    case h_1 proof heq2 =>
      rw [hdrop44, decodeByteLists_encodeByteLists t.proof hp] at heq2
      injection heq2 with hpr
      subst hpr
      rw [htake32, hidx, fromLEBytes_u64le _ hi]
    case h_2 e heq2 =>
      rw [hdrop44, decodeByteLists_encodeByteLists t.proof hp] at heq2
      exact absurd heq2 (by simp)

theorem canonical_value_roundtrip (t : TransactionIndex)
    (hh : t.block_hash.length = 32)
    (hi : t.transaction_index < 18446744073709551616)
    (hp : 4 * t.proof.length + sumLen t.proof < 4294967296) :
    CanonicalIndicesContentValue.decode
      (CanonicalIndicesContentValue.encode (.TransactionIndex t)) =
      .ok (.TransactionIndex t) := by
  have hlen := txindex_as_ssz_bytes_length t hh
  rw [CanonicalIndicesContentValue.decode, if_neg (by
    intro hc
    rw [show CanonicalIndicesContentValue.encode (.TransactionIndex t)
        = TransactionIndex.as_ssz_bytes t from rfl] at hc
    rw [hc] at hlen
    simp [contentAbsentBytes] at hlen
    omega)]
  rw [show CanonicalIndicesContentValue.encode (.TransactionIndex t)
      = TransactionIndex.as_ssz_bytes t from rfl,
    txindex_from_ssz_bytes_as_ssz_bytes t hh hi hp]

/-- Big-endian 4-byte encoding of a 32-bit word. -/
def u32be (n : Nat) : List Nat :=
  [n / 16777216 % 256, n / 65536 % 256, n / 256 % 256, n % 256]

/-- Big-endian 8-byte encoding of a 64-bit length field. -/
def u64be (n : Nat) : List Nat :=
  [n / 72057594037927936 % 256, n / 281474976710656 % 256,
   n / 1099511627776 % 256, n / 4294967296 % 256,
   n / 16777216 % 256, n / 65536 % 256, n / 256 % 256, n % 256]

/-- Value of a big-endian byte string. -/
def fromBEBytes : List Nat → Nat
  | [] => 0
  | b :: rest => b * 256 ^ rest.length + fromBEBytes rest

/-- Right rotation of a 32-bit word. -/
def rotr32 (n x : Nat) : Nat := (x >>> n ||| x <<< (32 - n)) % 4294967296

/-- The SHA-256 compression state: eight 32-bit working variables. -/
structure Hash8 where
  a : Nat
  b : Nat
  c : Nat
  d : Nat
  e : Nat
  f : Nat
  g : Nat
  h : Nat
  deriving DecidableEq, Repr

/-- The SHA-256 initial hash value. -/
def sha256InitH : Hash8 :=
  ⟨1779033703, 3144134277, 1013904242, 2773480762,
   1359893119, 2600822924, 528734635, 1541459225⟩

/-- The SHA-256 round constants. -/
def sha256K : List Nat :=
  [1116352408, 1899447441, 3049323471, 3921009573, 961987163,
   1508970993, 2453635748, 2870763221, 3624381080, 310598401,
   607225278, 1426881987, 1925078388, 2162078206, 2614888103,
   3248222580, 3835390401, 4022224774, 264347078, 604807628,
   770255983, 1249150122, 1555081692, 1996064986, 2554220882,
   2821834349, 2952996808, 3210313671, 3336571891, 3584528711,
   113926993, 338241895, 666307205, 773529912, 1294757372,
   1396182291, 1695183700, 1986661051, 2177026350, 2456956037,
   2730485921, 2820302411, 3259730800, 3345764771, 3516065817,
   3600352804, 4094571909, 275423344, 430227734, 506948616,
   659060556, 883997877, 958139571, 1322822218, 1537002063,
   1747873779, 1955562222, 2024104815, 2227730452, 2361852424,
   2428436474, 2756734187, 3204031479, 3329325298]

/-- Message-schedule extension step: append one more word computed from
words 2, 7, 15 and 16 places back. -/
def sha256NextWord (w : List Nat) : Nat :=
  let s0 := rotr32 7 (w.getD (w.length - 15) 0) ^^^ rotr32 18 (w.getD (w.length - 15) 0) ^^^
    (w.getD (w.length - 15) 0) >>> 3
  let s1 := rotr32 17 (w.getD (w.length - 2) 0) ^^^ rotr32 19 (w.getD (w.length - 2) 0) ^^^
    (w.getD (w.length - 2) 0) >>> 10
  (w.getD (w.length - 16) 0 + s0 + w.getD (w.length - 7) 0 + s1) % 4294967296

/-- Extend a message schedule by `fuel` additional words. -/
def sha256Extend (w : List Nat) : Nat → List Nat
  | 0 => w
  | fuel + 1 => sha256Extend (w ++ [sha256NextWord w]) fuel

/-- One SHA-256 round. -/
def sha256Round (st : Hash8) (k w : Nat) : Hash8 :=
  let s1 := rotr32 6 st.e ^^^ rotr32 11 st.e ^^^ rotr32 25 st.e
  let ch := (st.e &&& st.f) ^^^ ((st.e ^^^ 4294967295) &&& st.g)
  let t1 := (st.h + s1 + ch + k + w) % 4294967296
  let s0 := rotr32 2 st.a ^^^ rotr32 13 st.a ^^^ rotr32 22 st.a
  let mj := (st.a &&& st.b) ^^^ (st.a &&& st.c) ^^^ (st.b &&& st.c)
  let t2 := (s0 + mj) % 4294967296
  ⟨(t1 + t2) % 4294967296, st.a, st.b, st.c, (st.d + t1) % 4294967296, st.e, st.f, st.g⟩

/-- Compress one 64-byte block into the running hash state. -/
def sha256Compress (h : Hash8) (block : List Nat) : Hash8 :=
  let w0 := (List.range 16).map fun i => fromBEBytes ((block.drop (4 * i)).take 4)
  let w := sha256Extend w0 48
  let st := (sha256K.zip w).foldl (fun s p => sha256Round s p.1 p.2) h
  ⟨(h.a + st.a) % 4294967296, (h.b + st.b) % 4294967296, (h.c + st.c) % 4294967296,
   (h.d + st.d) % 4294967296, (h.e + st.e) % 4294967296, (h.f + st.f) % 4294967296,
   (h.g + st.g) % 4294967296, (h.h + st.h) % 4294967296⟩

/-- SHA-256 padding: a `0x80` byte, zeros to 56 mod 64, then the
bit length as a 64-bit big-endian integer. -/
def sha256Pad (msg : List Nat) : List Nat :=
  msg ++ 128 :: List.replicate ((119 - msg.length % 64) % 64) 0 ++ u64be (8 * msg.length)

/-- Fold the compression function over all 64-byte blocks. -/
def sha256Blocks (h : Hash8) : List Nat → Hash8
  | [] => h
  | b :: rest => sha256Blocks (sha256Compress h ((b :: rest).take 64)) ((b :: rest).drop 64)
  termination_by bs => bs.length
  decreasing_by simp [List.length_drop]; omega

/-- The SHA-256 hash of a byte string, as 32 bytes. -/
def sha256 (msg : List Nat) : List Nat :=
  let h := sha256Blocks sha256InitH (sha256Pad msg)
  u32be h.a ++ u32be h.b ++ u32be h.c ++ u32be h.d ++
    u32be h.e ++ u32be h.f ++ u32be h.g ++ u32be h.h

theorem sha256_length (msg : List Nat) : (sha256 msg).length = 32 := by
  simp [sha256, u32be]

/-- `BlobContentKey::content_id`: the SHA-256 hash of the key's SSZ
byte encoding. -/
def BlobContentKey.content_id (k : BlobContentKey) : List Nat :=
  sha256 k.as_ssz_bytes

/-- `CanonicalIndicesContentKey::content_id`: the SHA-256 hash of the
key's SSZ byte encoding. -/
def CanonicalIndicesContentKey.content_id (k : CanonicalIndicesContentKey) : List Nat :=
  sha256 k.as_ssz_bytes

/-- The absence sentinel string `CONTENT_ABSENT`, which serializes
absent content as `"0x"` rather than null (attested by the source
comments in the content-value modules). -/
def CONTENT_ABSENT : List Char := ['0', 'x']

/-- Lower-case hex digit for a nibble. -/
def hexDigitChar (n : Nat) : Char :=
  if n < 10 then Char.ofNat (48 + n) else Char.ofNat (87 + n)

/-- Modelled from the spec: `hex_encode` (utils/bytes.rs is not in the
excerpt) renders bytes as a `0x`-prefixed lower-case hex string; the
spec notes the empty-byte encoding coincides with the absence
sentinel. -/
def hex_encode (bs : List Nat) : List Char :=
  '0' :: 'x' :: bs.flatMap fun b => [hexDigitChar (b / 16), hexDigitChar (b % 16)]

/-- Value of a lower-case hex digit, if any. -/
def hexDigitVal (c : Char) : Option Nat :=
  if 48 ≤ c.toNat ∧ c.toNat ≤ 57 then some (c.toNat - 48)
  else if 97 ≤ c.toNat ∧ c.toNat ≤ 102 then some (c.toNat - 87)
  else none

/-- Decode pairs of hex digits; odd length or a bad digit is an error. -/
def hexPairs : List Char → Except (List Char) (List Nat)
  | [] => .ok []
  | [_] => .error ['o', 'd', 'd']
  | c1 :: c2 :: rest =>
    match hexDigitVal c1, hexDigitVal c2 with
    | some h1, some h2 =>
      match hexPairs rest with
      | .ok bs => .ok ((16 * h1 + h2) :: bs)
      | .error e => .error e
    | _, _ => .error ['b', 'a', 'd']

/-- Modelled from the spec: `hex_decode` (utils/bytes.rs is not in the
excerpt) requires a `0x`-prefixed hex string and returns its bytes. -/
def hex_decode (s : List Char) : Except (List Char) (List Nat) :=
  match s with
  | '0' :: 'x' :: rest => hexPairs rest
  | _ => .error ['n', 'o', '0', 'x']

/-- A JSON value as produced by the subnetwork request handlers (only
the shapes those handlers build). -/
inductive JsonValue
  | bool (b : Bool)
  | str (s : List Char)
  deriving DecidableEq, Repr

/-- The `local_content` handler of the blob subnetwork
(trin-blob/src/jsonrpc.rs): a stored value is returned as its hex
string, a miss as the `"0x"` sentinel string, and a storage failure as
a database error. -/
def local_content {StoreErr : Type} (dbError : StoreErr → List Char)
    (getResult : Except StoreErr (Option (List Nat))) : Except (List Char) JsonValue :=
  match getResult with
  | .ok (some val) => .ok (.str (hex_encode val))
  | .ok none => .ok (.str CONTENT_ABSENT)
  | .error err => .error (dbError err)

/-- Deserializing a `BlobContentValue` from a JSON value
(`from_value`, via the Deserialize impl in content_value/blob.rs):
only a hex string that SSZ-decodes as a `Blob` is accepted. -/
def from_value_blob_content (v : JsonValue) : Except (List Char) BlobContentValue :=
  match v with
  | .bool _ => .error ['n', 'o', 't', 's', 't', 'r']
  | .str s =>
    match hex_decode s with
    | .error e => .error e
    | .ok content_bytes =>
      match Blob.from_ssz_bytes content_bytes with
      | .ok value => .ok (.Blob value)
      | .error _ => .error ['u', 'n', 'k', 'n', 'o', 'w', 'n']

/-- A content response at the RPC boundary (`PossibleBlobContentValue`). -/
inductive PossibleBlobContentValue
  | ContentPresent (v : BlobContentValue)
  | ContentAbsent
  deriving DecidableEq, Repr

/-- The outer `BlobNetworkApi::local_content` method (rpc/src/blob_rpc.rs):
a handler error is surfaced as an RPC error; the `"0x"` sentinel string
maps to `ContentAbsent`; any other result must deserialize as a content
value. -/
def rpc_local_content (inner : Except (List Char) JsonValue) :
    Except (List Char) PossibleBlobContentValue :=
  match inner with
  | .error msg => .error msg
  | .ok result =>
    if result = .str CONTENT_ABSENT then .ok .ContentAbsent
    else
      match from_value_blob_content result with
      | .ok content => .ok (.ContentPresent content)
      | .error e => .error e

/-- Deserializing a `bool` from a JSON value (`from_value::<bool>`):
only a JSON boolean is accepted. -/
def from_value_bool (v : JsonValue) : Except (List Char) Bool :=
  match v with
  | .bool b => .ok b
  | _ => .error ['n', 'o', 't', 'b', 'o', 'o', 'l']

/-- The `store` handler of the blob subnetwork
(trin-blob/src/jsonrpc.rs): a successful put yields the JSON boolean
`true`; a put failure yields the error rendered as a JSON string, still
in the success-shaped arm. -/
def store_handler {PutErr : Type} (errString : PutErr → List Char)
    (putResult : Except PutErr Unit) : Except (List Char) JsonValue :=
  match putResult with
  | .ok _ => .ok (.bool true)
  | .error err => .ok (.str (errString err))

/-- The outer `BlobNetworkApi::store` method (rpc/src/blob_rpc.rs): the
proxied result must deserialize as a boolean. -/
def rpc_store (inner : Except (List Char) JsonValue) : Except (List Char) Bool :=
  match inner with
  | .error msg => .error msg
  | .ok result => from_value_bool result

/-- Modelled from the spec: the PONG message (portalnet types are not
in the excerpt) carries the peer's ENR sequence number and the radius
the peer advertises in the radius/sequence exchange. -/
structure Pong where
  enr_seq : Nat
  data_radius : Nat
  deriving DecidableEq, Repr

/-- The RPC `PongInfo` payload: a 32-bit sequence number and a radius. -/
structure PongInfo where
  enr_seq : Nat
  data_radius : Nat
  deriving DecidableEq, Repr

/-- The `ping` handler of the blob subnetwork
(trin-blob/src/jsonrpc.rs): on a successful exchange it builds
`PongInfo` from the pong's sequence number cast to `u32` and from the
local overlay's own data radius. -/
def ping (pong : Pong) (localRadius : Nat) : PongInfo :=
  { enr_seq := pong.enr_seq % 4294967296, data_radius := localRadius }

/-- The talk-request handler of the blob subnetwork
(trin-blob/src/events.rs): a successful overlay response is encoded
into the reply; any processing error is answered with the empty
TALKRESP payload. -/
def handle_blob_talk_request {Resp Err : Type} (encodeMsg : Resp → List Nat)
    (processResult : Except Err Resp) : List Nat :=
  match processResult with
  | .ok response => encodeMsg response
  | .error _ => []

/-- `BlobValidator::validate_content` (trin-blob/src/validation.rs):
blob validation is not implemented and accepts everything. -/
def BlobValidator.validate_content (_content_key : BlobContentKey)
    (_content : List Nat) : Except (List Char) Unit :=
  .ok ()

/-- A trusted header as returned by the header oracle; only its
transactions root matters here.  Modelled from the spec: the Header
type is not in the excerpt. -/
structure Header where
  transactions_root : List Nat
  deriving DecidableEq, Repr

/-- `CanonicalIndicesValidator::validate_content`
(trin-canonical-indices/src/validation.rs), parameterized over the
external collaborators: the header oracle, the trie proof verifier, the
keccak hash and the RLP integer encoder.  The content must SSZ-decode
as a `TransactionIndex`; the oracle must produce the trusted header for
its block hash; the Merkle proof must verify against the header's
transactions root at the RLP-encoded transaction index; and the keccak
hash of the proven transaction must equal the key's transaction hash. -/
def CanonicalIndicesValidator.validate_content
    (oracle : List Nat → Except (List Char) Header)
    (verifyProof : List Nat → List Nat → List (List Nat) → Except (List Char) (Option (List Nat)))
    (keccak : List Nat → List Nat)
    (rlpEncode : Nat → List Nat)
    (content_key : CanonicalIndicesContentKey)
    (content : List Nat) : Except (List Char) Unit :=
  match content_key with
  | .Transaction key =>
    match TransactionIndex.from_ssz_bytes content with
    | .error _ => .error ['s', 's', 'z']
    | .ok idx =>
      match oracle idx.block_hash with
      | .error e => .error e
      | .ok trusted_header =>
        match verifyProof trusted_header.transactions_root
            (rlpEncode idx.transaction_index) idx.proof with
        | .error e => .error e
        | .ok none => .error ['n', 'o', 't', 'f', 'o', 'u', 'n', 'd']
        | .ok (some x) =>
          if keccak x = key.transaction_hash then .ok ()
          else .error ['h', 'a', 's', 'h']

/-- Outcome of a serde string deserialization in the Rust sources:
either a decode error, a successfully decoded key, or a panic of the
deserializer itself. -/
inductive KeyDeserOutcome (α : Type)
  | panicked
  | err (msg : List Char)
  | ok (k : α)
  deriving DecidableEq, Repr

/-- The `Deserialize` impl for `BlobContentKey`
(content_key/blob.rs): lower-case the input; a string without the `0x`
prefix is reported with `&data[..2]` in the message, which slices out
of bounds — a panic — when the input is shorter than two characters;
otherwise the hex bytes are SSZ-decoded. -/
def deserializeBlobContentKey (s : List Char) : KeyDeserOutcome BlobContentKey :=
  let data := s.map Char.toLower
  match data with
  | '0' :: 'x' :: _ =>
    (match hex_decode data with
     | .error _ => .err ['h', 'e', 'x']
     | .ok ssz_bytes =>
       match BlobContentKey.from_ssz_bytes ssz_bytes with
       | .ok key => .ok key
       | .error _ => .err ['s', 's', 'z'])
  | _ =>
    if data.length < 2 then .panicked
    else .err ('p' :: 'f' :: 'x' :: data.take 2)

/-- The `Deserialize` impl for `CanonicalIndicesContentKey`
(content_key/canonical_indices.rs), identical in shape. -/
def deserializeCanonicalIndicesContentKey (s : List Char) :
    KeyDeserOutcome CanonicalIndicesContentKey :=
  let data := s.map Char.toLower
  match data with
  | '0' :: 'x' :: _ =>
    (match hex_decode data with
     | .error _ => .err ['h', 'e', 'x']
     | .ok ssz_bytes =>
       match CanonicalIndicesContentKey.from_ssz_bytes ssz_bytes with
       | .ok key => .ok key
       | .error _ => .err ['s', 's', 'z'])
  | _ =>
    if data.length < 2 then .panicked
    else .err ('p' :: 'f' :: 'x' :: data.take 2)

theorem hex_encode_eq_absent_iff (v : List Nat) :
    hex_encode v = CONTENT_ABSENT ↔ v = [] := by
  constructor
  · intro h
    cases v with
    | nil => rfl
    | cons b bs => simp [hex_encode, CONTENT_ABSENT] at h
  · intro h
    subst h
    rfl

/-- C1: decoding the byte encoding produced by `encode` (respectively
the `Vec<u8>` conversion) yields the original value, for blob and
canonical-indices content values and content keys.  The fixed array
widths, the `u64` range of the transaction index and the `u32` range of
the SSZ offsets are the Rust type invariants of the encoded fields. -/
theorem claim_C1_encode_decode_roundtrip :
    (∀ v : BlobContentValue, BlobContentValue.decode (BlobContentValue.encode v) = .ok v)
    ∧ (∀ t : TransactionIndex, t.block_hash.length = 32 →
        t.transaction_index < 18446744073709551616 →
        4 * t.proof.length + sumLen t.proof < 4294967296 →
        CanonicalIndicesContentValue.decode
          (CanonicalIndicesContentValue.encode (.TransactionIndex t)) =
          .ok (.TransactionIndex t))
    ∧ (∀ c : List Nat, c.length = 32 →
        BlobContentKey.try_from (BlobContentKey.toVec (.Blob ⟨c⟩)) = .ok (.Blob ⟨c⟩))
    ∧ (∀ c : List Nat, c.length = 32 →
        CanonicalIndicesContentKey.try_from
          (CanonicalIndicesContentKey.toVec (.Transaction ⟨c⟩)) = .ok (.Transaction ⟨c⟩)) :=
  ⟨blob_value_roundtrip, canonical_value_roundtrip, blob_key_roundtrip, canonical_key_roundtrip⟩

/-- C1 witness: the round trips evaluated at concrete values. -/
theorem claim_C1_witness :
    CanonicalIndicesContentValue.decode
      (CanonicalIndicesContentValue.encode
        (.TransactionIndex ⟨List.replicate 32 7, 3, [[1, 2], [3]]⟩)) =
      .ok (.TransactionIndex ⟨List.replicate 32 7, 3, [[1, 2], [3]]⟩)
    ∧ BlobContentValue.decode (BlobContentValue.encode (.Blob ⟨[1, 2, 3]⟩)) =
      .ok (.Blob ⟨[1, 2, 3]⟩)
    ∧ BlobContentKey.try_from (BlobContentKey.toVec (.Blob ⟨List.replicate 32 5⟩)) =
      .ok (.Blob ⟨List.replicate 32 5⟩)
    ∧ CanonicalIndicesContentKey.try_from
        (CanonicalIndicesContentKey.toVec (.Transaction ⟨List.replicate 32 6⟩)) =
      .ok (.Transaction ⟨List.replicate 32 6⟩) :=
  ⟨claim_C1_encode_decode_roundtrip.2.1 _ (by decide) (by decide) (by decide),
   claim_C1_encode_decode_roundtrip.1 _,
   claim_C1_encode_decode_roundtrip.2.2.1 _ (by decide),
   claim_C1_encode_decode_roundtrip.2.2.2 _ (by decide)⟩

/-- C2: `content_id` is the SHA-256 hash of the key's SSZ byte
encoding, always 32 bytes, and depends only on the encoded bytes. -/
theorem claim_C2_content_id_sha256 :
    (∀ k : BlobContentKey,
       k.content_id = sha256 k.as_ssz_bytes ∧ k.content_id.length = 32)
    ∧ (∀ k1 k2 : BlobContentKey,
       k1.as_ssz_bytes = k2.as_ssz_bytes → k1.content_id = k2.content_id)
    ∧ (∀ k : CanonicalIndicesContentKey,
       k.content_id = sha256 k.as_ssz_bytes ∧ k.content_id.length = 32)
    ∧ (∀ k1 k2 : CanonicalIndicesContentKey,
       k1.as_ssz_bytes = k2.as_ssz_bytes → k1.content_id = k2.content_id) :=
  ⟨fun k => ⟨rfl, sha256_length k.as_ssz_bytes⟩,
   fun _ _ h => congrArg sha256 h,
   fun k => ⟨rfl, sha256_length k.as_ssz_bytes⟩,
   fun _ _ h => congrArg sha256 h⟩

/-- C2 witness: the identifier properties at a concrete key. -/
theorem claim_C2_witness :
    (BlobContentKey.Blob ⟨List.replicate 32 0⟩).content_id.length = 32
    ∧ (BlobContentKey.Blob ⟨List.replicate 32 0⟩).content_id =
      (BlobContentKey.Blob ⟨List.replicate 32 0⟩).content_id
    ∧ (CanonicalIndicesContentKey.Transaction ⟨List.replicate 32 0⟩).content_id.length = 32
    ∧ (CanonicalIndicesContentKey.Transaction ⟨List.replicate 32 0⟩).content_id =
      (CanonicalIndicesContentKey.Transaction ⟨List.replicate 32 0⟩).content_id :=
  ⟨(claim_C2_content_id_sha256.1 _).2,
   claim_C2_content_id_sha256.2.1 _ _ rfl,
   (claim_C2_content_id_sha256.2.2.1 _).2,
   claim_C2_content_id_sha256.2.2.2 _ _ rfl⟩

/-- C3 counterexample: the local store holds an entry for the key — the
empty byte string — yet the LocalContent operation reports the absent
outcome, because `hex_encode([])` equals the `"0x"` sentinel; the inner
handler output is indistinguishable from a miss. -/
theorem claim_C3_counterexample :
    rpc_local_content (local_content (fun _ : Unit => []) (.ok (some ([] : List Nat)))) =
      .ok .ContentAbsent
    ∧ local_content (fun _ : Unit => []) (.ok (some ([] : List Nat))) =
      local_content (fun _ : Unit => []) (.ok none) :=
  ⟨rfl, rfl⟩

/-- C3 amended: LocalContent reports the absent outcome exactly when
the store misses or the stored value is the empty byte string (whose
hex encoding coincides with the absence sentinel); any other stored
value is returned as present content (its hex string, distinct from
the sentinel), and a storage failure is surfaced as an error distinct
from both. -/
theorem claim_C3_local_content_outcomes :
    (∀ (StoreErr : Type) (dbError : StoreErr → List Char) (v : List Nat),
       local_content dbError (.ok (some v)) = .ok (.str (hex_encode v))
       ∧ (hex_encode v = CONTENT_ABSENT ↔ v = []))
    ∧ (∀ (StoreErr : Type) (dbError : StoreErr → List Char),
       local_content dbError (.ok (none : Option (List Nat))) = .ok (.str CONTENT_ABSENT))
    ∧ (∀ (StoreErr : Type) (dbError : StoreErr → List Char) (e : StoreErr),
       local_content dbError (.error e : Except StoreErr (Option (List Nat))) =
         .error (dbError e))
    ∧ rpc_local_content (.ok (.str CONTENT_ABSENT)) = .ok .ContentAbsent :=
  ⟨fun _ _ v => ⟨rfl, hex_encode_eq_absent_iff v⟩, fun _ _ => rfl, fun _ _ _ => rfl, rfl⟩

/-- C3 witness: the amended outcomes at concrete inputs. -/
theorem claim_C3_witness :
    local_content (fun _ : Unit => []) (.ok (some [1])) = .ok (.str (hex_encode [1]))
    ∧ (hex_encode [1] = CONTENT_ABSENT ↔ ([1] : List Nat) = [])
    ∧ local_content (fun _ : Unit => []) (.ok (none : Option (List Nat))) =
      .ok (.str CONTENT_ABSENT)
    ∧ local_content (fun _ : Unit => ['d', 'b']) (.error () : Except Unit (Option (List Nat))) =
      .error ['d', 'b'] :=
  ⟨(claim_C3_local_content_outcomes.1 Unit (fun _ => []) [1]).1,
   (claim_C3_local_content_outcomes.1 Unit (fun _ => []) [1]).2,
   claim_C3_local_content_outcomes.2.1 Unit (fun _ => []),
   claim_C3_local_content_outcomes.2.2.1 Unit (fun _ => ['d', 'b']) ()⟩

/-- C4: `decode` returns `DecodeAbsentContent` exactly on the ASCII
bytes of the `"0x"` sentinel, and no valid content-value encoding
equals those bytes. -/
theorem claim_C4_absent_sentinel_guard :
    (∀ b : List Nat,
       BlobContentValue.decode b = .error .DecodeAbsentContent ↔ b = contentAbsentBytes)
    ∧ (∀ b : List Nat,
       CanonicalIndicesContentValue.decode b = .error .DecodeAbsentContent ↔
         b = contentAbsentBytes)
    ∧ (∀ v : BlobContentValue, BlobContentValue.encode v ≠ contentAbsentBytes)
    ∧ (∀ v : CanonicalIndicesContentValue,
       CanonicalIndicesContentValue.encode v ≠ contentAbsentBytes) := by
  refine ⟨fun b => ⟨fun h => ?_, fun h => by rw [BlobContentValue.decode, if_pos h]⟩,
    fun b => ⟨fun h => ?_, fun h => by rw [CanonicalIndicesContentValue.decode, if_pos h]⟩,
    fun v => ?_, fun v => ?_⟩
  · by_contra hb
    rw [BlobContentValue.decode, if_neg hb] at h
    revert h
    split <;> simp
  · by_contra hb
    rw [CanonicalIndicesContentValue.decode, if_neg hb] at h
    revert h
    split <;> simp
  · intro hc
    obtain ⟨b⟩ := v
    have hlen := blob_as_ssz_bytes_length b
    rw [show Blob.as_ssz_bytes b = BlobContentValue.encode (.Blob b) from rfl, hc] at hlen
    simp [contentAbsentBytes] at hlen
    omega
  · intro hc
    obtain ⟨t⟩ := v
    have hlen : (CanonicalIndicesContentValue.encode (.TransactionIndex t)).length =
        t.block_hash.length + 8 + 4 + (encodeByteLists t.proof).length := by
      simp [CanonicalIndicesContentValue.encode, TransactionIndex.as_ssz_bytes, u64le, u32le]
      omega
    rw [hc] at hlen
    simp [contentAbsentBytes] at hlen
    omega

/-- C4 witness: the sentinel guard at concrete inputs. -/
theorem claim_C4_witness :
    BlobContentValue.decode contentAbsentBytes = .error .DecodeAbsentContent
    ∧ CanonicalIndicesContentValue.decode contentAbsentBytes = .error .DecodeAbsentContent
    ∧ BlobContentValue.encode (.Blob ⟨[]⟩) ≠ contentAbsentBytes :=
  ⟨(claim_C4_absent_sentinel_guard.1 contentAbsentBytes).mpr rfl,
   (claim_C4_absent_sentinel_guard.2.1 contentAbsentBytes).mpr rfl,
   claim_C4_absent_sentinel_guard.2.2.1 (.Blob ⟨[]⟩)⟩

/-- C5 counterexample: with a pong advertising radius 7 and sequence
number 2^32 + 5 while the local radius is 3, the returned `PongInfo`
carries neither the peer's sequence number unmodified nor the peer's
advertised radius. -/
theorem claim_C5_counterexample :
    ¬ ((ping ⟨4294967301, 7⟩ 3).enr_seq = 4294967301
       ∧ (ping ⟨4294967301, 7⟩ 3).data_radius = 7) := by
  decide

/-- C5 amended: the `PongInfo` returned by a successful Ping carries
the peer's ENR sequence number truncated to 32 bits (so unmodified only
below 2^32) and the local node's own current data radius; the radius
the peer advertised in its PONG is ignored. -/
theorem claim_C5_ping_pong_info :
    ∀ (pong : Pong) (localRadius : Nat),
      (ping pong localRadius).enr_seq = pong.enr_seq % 4294967296
      ∧ (ping pong localRadius).data_radius = localRadius
      ∧ (pong.enr_seq < 4294967296 → (ping pong localRadius).enr_seq = pong.enr_seq) :=
  fun pong _ => ⟨rfl, rfl, fun h => by simp [ping, Nat.mod_eq_of_lt h]⟩

/-- C5 witness: the amended behavior at a concrete exchange. -/
theorem claim_C5_witness :
    (ping ⟨9, 7⟩ 3).enr_seq = 9 % 4294967296
    ∧ (ping ⟨9, 7⟩ 3).data_radius = 3
    ∧ (ping ⟨9, 7⟩ 3).enr_seq = 9 :=
  ⟨(claim_C5_ping_pong_info ⟨9, 7⟩ 3).1,
   (claim_C5_ping_pong_info ⟨9, 7⟩ 3).2.1,
   (claim_C5_ping_pong_info ⟨9, 7⟩ 3).2.2 (by decide)⟩

/-- C6: a failing put is surfaced to the RPC caller as an error (the
error string cannot deserialize as the expected boolean), never as a
success-shaped value, and a successful put returns the boolean true;
the intermediate handler wraps the failure as a JSON string. -/
theorem claim_C6_store_put_failure :
    (∀ (PutErr : Type) (errString : PutErr → List Char),
       rpc_store (store_handler errString (.ok ())) = .ok true)
    ∧ (∀ (PutErr : Type) (errString : PutErr → List Char) (e : PutErr),
       (∃ msg, rpc_store (store_handler errString (.error e)) = .error msg)
       ∧ store_handler errString (.error e) = .ok (.str (errString e))) :=
  ⟨fun _ _ => rfl, fun _ _ _ => ⟨⟨_, rfl⟩, rfl⟩⟩

/-- C7: the talk-request handler produces a reply for every processing
outcome — the encoded response on success and the empty reply on any
error — so no inbound request goes unanswered. -/
theorem claim_C7_talk_request_reply :
    ∀ (Resp Err : Type) (encodeMsg : Resp → List Nat),
      (∀ e : Err, handle_blob_talk_request encodeMsg (.error e : Except Err Resp) = [])
      ∧ (∀ resp : Resp,
          handle_blob_talk_request encodeMsg (.ok resp : Except Err Resp) = encodeMsg resp) :=
  fun _ _ _ => ⟨fun _ => rfl, fun _ => rfl⟩

/-- C8: the canonical-indices validator accepts only when the content
SSZ-decodes as a `TransactionIndex`, the header oracle supplies the
trusted header for its block hash, the Merkle proof verifies against
that header's transactions root at the RLP-encoded transaction index,
and the keccak hash of the proven transaction equals the key's
transaction hash; in every other case it returns a rejection error. -/
theorem claim_C8_canonical_validation :
    ∀ (oracle : List Nat → Except (List Char) Header)
      (verifyProof : List Nat → List Nat → List (List Nat) →
        Except (List Char) (Option (List Nat)))
      (keccak : List Nat → List Nat) (rlpEncode : Nat → List Nat)
      (key : TransactionKey) (content : List Nat),
      CanonicalIndicesValidator.validate_content oracle verifyProof keccak rlpEncode
        (.Transaction key) content = .ok () →
      ∃ idx trusted_header x,
        TransactionIndex.from_ssz_bytes content = .ok idx
        ∧ oracle idx.block_hash = .ok trusted_header
        ∧ verifyProof trusted_header.transactions_root
            (rlpEncode idx.transaction_index) idx.proof = .ok (some x)
        ∧ keccak x = key.transaction_hash := by
  intro oracle verifyProof keccak rlpEncode key content h
  rw [CanonicalIndicesValidator.validate_content] at h
  revert h
  split
  · intro h
    exact absurd h (by simp)
  case h_2 idx heq =>
    split
    · intro h
      exact absurd h (by simp)
    case h_2 trusted_header heq2 =>
      split
      · intro h
        exact absurd h (by simp)
      · intro h
        exact absurd h (by simp)
      case h_3 x heq3 =>
        intro h
        refine ⟨idx, trusted_header, x, heq, heq2, heq3, ?_⟩
        by_contra hne
        rw [if_neg hne] at h
        exact absurd h (by simp)

/-- C8 witness: a concrete accepted validation, with the conclusion
extracted by the theorem. -/
theorem claim_C8_witness :
    ∃ idx trusted_header x,
      TransactionIndex.from_ssz_bytes
        (TransactionIndex.as_ssz_bytes ⟨List.replicate 32 1, 0, [[5]]⟩) = .ok idx
      ∧ (fun _ : List Nat => (.ok ⟨[2]⟩ : Except (List Char) Header)) idx.block_hash =
        .ok trusted_header
      ∧ (fun _ _ _ => (.ok (some [9]) : Except (List Char) (Option (List Nat))))
          trusted_header.transactions_root ((fun n => [n]) idx.transaction_index) idx.proof =
        .ok (some x)
      ∧ (fun _ : List Nat => List.replicate 32 3) x = List.replicate 32 3 :=
  claim_C8_canonical_validation (fun _ => .ok ⟨[2]⟩) (fun _ _ _ => .ok (some [9]))
    (fun _ => List.replicate 32 3) (fun n => [n]) ⟨List.replicate 32 3⟩
    (TransactionIndex.as_ssz_bytes ⟨List.replicate 32 1, 0, [[5]]⟩) (by rfl)

/-- C9: blob validation accepts every content key and byte string, so
a validation rejection is unreachable on the blob network. -/
theorem claim_C9_blob_validation_accepts_all :
    ∀ (content_key : BlobContentKey) (content : List Nat),
      BlobValidator.validate_content content_key content = .ok () :=
  fun _ _ => rfl

/-- C10: on the one-character input string `"a"`, which does not start
with `0x`, both key deserializers slice `&data[..2]` out of bounds
while formatting the error and panic instead of returning a decode
error. -/
theorem claim_C10_deserialize_short_input :
    deserializeBlobContentKey ['a'] = .panicked
    ∧ deserializeCanonicalIndicesContentKey ['a'] = .panicked := by
  constructor <;> rfl
